import Mathlib

/-!
Verification development for the tracker2api access-control and invite-code
sharing subsystem.  Go strings are modelled as `List Char`; machine timestamps
as `Nat` seconds; SQL nullable columns as `Option`; the transactional store as
an explicit `DBState` record threaded through each operation.  Row locking
serialises the redemption transaction, so each database operation is embedded
as one atomic state transition.
-/

namespace Tracker2

/-! ### Code codec (src/internal/api/invite.go) -/

/-- Code alphabet from invite.go: excludes 0, O, 1, I, L to avoid confusion. -/
def codeAlphabet : List Char := "23456789ABCDEFGHJKMNPQRSTUVWXYZ".toList

/-- CodeExpiration from invite.go: 48 hours, in seconds. -/
def codeExpiration : Nat := 48 * 60 * 60

/-- NormalizeCode from invite.go: uppercases, then removes all dashes, then all
spaces (strings.ToUpper, then ReplaceAll of the dash, then of the space). -/
def normalizeCode (code : List Char) : List Char :=
  ((code.map Char.toUpper).filter (fun c => c != '-')).filter (fun c => c != ' ')

/-- IsValidCodeFormat from invite.go: the normalized input has length exactly 10
and every character is in the alphabet. -/
def isValidCodeFormat (code : List Char) : Bool :=
  let n := normalizeCode code
  n.length == 10 && n.all (fun c => codeAlphabet.contains c)

/-- GenerateInviteCode from invite.go, as a function of the ten random bytes
read from the cryptographically secure source: each output character is
codeAlphabet indexed by the byte modulo the alphabet length, and the ten
characters are formatted as XXXX-XXXX-XX. -/
def generateInviteCode (randomBytes : Fin 10 → Nat) : List Char :=
  let code := (List.finRange 10).map
    (fun i => codeAlphabet.getD (randomBytes i % codeAlphabet.length) ' ')
  code.take 4 ++ ['-'] ++ ((code.drop 4).take 4) ++ ['-'] ++ code.drop 8

/-- Abstract model of a bcrypt digest (golang.org/x/crypto/bcrypt).
GenerateFromPassword stores a salted one-way digest of the password, and
CompareHashAndPassword succeeds exactly when the candidate password equals the
password that was hashed; the model keeps the password itself, which realises
precisely that comparison semantics. -/
structure BcryptHash where
  password : List Char
deriving Repr, DecidableEq

/-- HashCode from invite.go: normalize, then bcrypt-hash. -/
def hashCode (code : List Char) : BcryptHash :=
  BcryptHash.mk (normalizeCode code)

/-- VerifyCode from invite.go: normalize the candidate and compare it against
the stored hash. -/
def verifyCode (code : List Char) (h : BcryptHash) : Bool :=
  normalizeCode code == h.password

/-! ### Codec lemmas -/

theorem toNat_ofNat_of_valid {n : Nat} (h : n.isValidChar) :
    (Char.ofNat n).toNat = n := by
  rw [Char.ofNat, dif_pos h]
  rfl

theorem toUpper_toUpper (c : Char) : c.toUpper.toUpper = c.toUpper := by
  unfold Char.toUpper
  by_cases h : c.toNat ≥ 97 ∧ c.toNat ≤ 122
  · rw [if_pos h]
    have hv : (c.toNat - 32).isValidChar := Or.inl (by omega)
    rw [if_neg]
    rw [toNat_ofNat_of_valid hv]
    omega
  · rw [if_neg h, if_neg h]

theorem map_id_of_fixed {f : Char → Char} :
    ∀ l : List Char, (∀ c ∈ l, f c = c) → l.map f = l := by
  intro l h
  induction l with
  | nil => rfl
  | cons a t ih =>
    simp only [List.map_cons, List.cons.injEq]
    exact ⟨h a (List.mem_cons_self a t), ih fun c hc => h c (List.mem_cons_of_mem a hc)⟩

theorem mem_normalizeCode_fixed {c : Char} {l : List Char}
    (h : c ∈ normalizeCode l) : c.toUpper = c := by
  unfold normalizeCode at h
  have h1 : c ∈ (l.map Char.toUpper).filter (fun c => c != '-') :=
    List.mem_of_mem_filter h
  have h2 : c ∈ l.map Char.toUpper := List.mem_of_mem_filter h1
  obtain ⟨a, _, rfl⟩ := List.mem_map.mp h2
  exact toUpper_toUpper a

theorem normalizeCode_idem (l : List Char) :
    normalizeCode (normalizeCode l) = normalizeCode l := by
  have hmap : (normalizeCode l).map Char.toUpper = normalizeCode l :=
    map_id_of_fixed _ (fun c hc => mem_normalizeCode_fixed hc)
  have hdash : ∀ c ∈ normalizeCode l, (c != '-') = true := by
    intro c hc
    unfold normalizeCode at hc
    exact ((List.mem_filter.mp (List.mem_filter.mp hc).1).2 : _)
  have hspace : ∀ c ∈ normalizeCode l, (c != ' ') = true := by
    intro c hc
    unfold normalizeCode at hc
    exact ((List.mem_filter.mp hc).2 : _)
  conv_lhs => rw [normalizeCode]
  rw [hmap, List.filter_eq_self.mpr hdash, List.filter_eq_self.mpr hspace]

/-! ### Data model (src/cmd/server/main.go model structs, src/unnamed consolidated
schema).  Profile-only payload columns (due date, names, photos, archive and
outcome fields, ...) play no part in the access-control logic and are omitted;
every column consulted or written by the embedded operations is present. -/

/-- Row of clingy_pregnancies (access-control columns). -/
structure Pregnancy where
  id : Nat
  ownerId : String
  partnerId : Option String
  partnerStatus : Option String
  partnerPermission : Option String
  partnerName : Option String
  displayPartnerCard : Option Bool
  coownerId : Option String
  coownerName : Option String
deriving Repr, DecidableEq

/-- Row of clingy_supporters.  The permission column carries the SQL default
value read unless something writes it explicitly. -/
structure Supporter where
  id : Nat
  pregnancyId : Nat
  userId : String
  displayName : Option String
  permission : Option String
  joinedAt : Nat
  invitedViaCodeId : Option Nat
  removedAt : Option Nat
  displayPartnerCard : Option Bool
deriving Repr, DecidableEq

/-- Row of clingy_invite_codes (the display-only code prefix column is
omitted). -/
structure InviteCode where
  id : Nat
  pregnancyId : Nat
  codeHash : BcryptHash
  role : String
  permission : String
  createdAt : Nat
  expiresAt : Nat
  redeemedAt : Option Nat
  redeemedBy : Option String
  revokedAt : Option Nat
deriving Repr, DecidableEq

/-- Row of clingy_code_attempts. -/
structure CodeAttempt where
  userId : String
  attemptedAt : Nat
  success : Bool
  ipAddress : String
deriving Repr, DecidableEq

/-- Row of clingy_pairing_requests. -/
structure PairingRequest where
  id : Nat
  requesterId : String
  requesterName : Option String
  targetEmail : String
  targetId : Option String
  status : String
  permission : Option String
  resolvedAt : Option Nat
deriving Repr, DecidableEq

/-- The transactional store plus the server clock (NOW()). -/
structure DBState where
  pregnancies : List Pregnancy
  supporters : List Supporter
  inviteCodes : List InviteCode
  codeAttempts : List CodeAttempt
  pairingRequests : List PairingRequest
  now : Nat
deriving Repr, DecidableEq

/-- Error values of package db: ErrNotFound, plus a generic storage error for
raw driver failures passed through unmapped. -/
inductive DBErr where
  | notFound
  | storage
deriving Repr, DecidableEq

/-! ### Read-side database operations (src/internal/db/db.go) -/

/-- GetPregnancyByOwner: first row of clingy_pregnancies with this owner
(the owner column is UNIQUE, so at most one row exists in well-formed data). -/
def getPregnancyByOwner (s : DBState) (ownerId : String) : Option Pregnancy :=
  s.pregnancies.find? (fun p => p.ownerId == ownerId)

/-- GetPregnancyByPartner: row whose partner is this user with partner status
approved. -/
def getPregnancyByPartner (s : DBState) (partnerId : String) : Option Pregnancy :=
  s.pregnancies.find?
    (fun p => p.partnerId == some partnerId && p.partnerStatus == some "approved")

/-- Modelled from the spec: GetPregnancyByCoowner is called by the access
resolver (auth.go) but its definition is not in the repository snapshot; per
the spec a co-owner is "a pregnancy whose co-owner identity equals userId". -/
def getPregnancyByCoowner (s : DBState) (userId : String) : Option Pregnancy :=
  s.pregnancies.find? (fun p => p.coownerId == some userId)

/-- GetPregnancyBySupporter: join of clingy_pregnancies with an active
(non-removed) supporter row for this user; first matching row. -/
def getPregnancyBySupporter (s : DBState) (userId : String) : Option Pregnancy :=
  match s.supporters.find? (fun x => x.userId == userId && x.removedAt == none) with
  | none => none
  | some sup => s.pregnancies.find? (fun p => p.id == sup.pregnancyId)

/-- Modelled from the spec: GetSupporterByUserID is called by the access
resolver (auth.go) but its definition is not in the repository snapshot; per
the spec the resolver reads "an active (non-removed) supporter row for
userId". -/
def getSupporterByUserID (s : DBState) (userId : String) : Option Supporter :=
  s.supporters.find? (fun x => x.userId == userId && x.removedAt == none)

/-! ### Access resolver (src/internal/auth/auth.go) -/

/-- The getAccessiblePregnancy helper of auth.go: try owner, then co-owner,
then approved partner, then active supporter; first match wins.  `none` is the
ErrNotFound outcome. -/
def getAccessiblePregnancy (s : DBState) (userId : String) :
    Option (Pregnancy × String) :=
  match getPregnancyByOwner s userId with
  | some p => some (p, "write")
  | none =>
  match getPregnancyByCoowner s userId with
  | some p => some (p, "write")
  | none =>
  match getPregnancyByPartner s userId with
  | some p => some (p, p.partnerPermission.getD "read")
  | none =>
  match getPregnancyBySupporter s userId with
  | some p =>
      let permission :=
        match getSupporterByUserID s userId with
        | some sup => sup.permission.getD "read"
        | none => "read"
      some (p, permission)
  | none => none

/-- The GetMyRole handler of auth.go: same resolution order as
getAccessiblePregnancy, additionally naming the matched role. -/
def getMyRole (s : DBState) (userId : String) :
    Option (String × String × Pregnancy) :=
  match getPregnancyByOwner s userId with
  | some p => some ("owner", "write", p)
  | none =>
  match getPregnancyByCoowner s userId with
  | some p => some ("coowner", "write", p)
  | none =>
  match getPregnancyByPartner s userId with
  | some p => some ("father", p.partnerPermission.getD "read", p)
  | none =>
  match getPregnancyBySupporter s userId with
  | some p =>
      let permission :=
        match getSupporterByUserID s userId with
        | some sup => sup.permission.getD "read"
        | none => "read"
      some ("support", permission, p)
  | none => none

/-! ### Rate limiting operations (src/internal/db/db.go) -/

/-- CountRecentCodeAttempts: failed attempts by the user whose timestamp is
strictly inside the trailing one-hour window (attempted_at > NOW() - 1 hour,
written here without truncating subtraction). -/
def countRecentCodeAttempts (s : DBState) (userId : String) : Nat :=
  (s.codeAttempts.filter
    (fun a => a.userId == userId && a.success == false
      && decide (s.now < a.attemptedAt + 3600))).length

/-- RecordCodeAttempt: append one attempt row stamped with the current time. -/
def recordCodeAttempt (s : DBState) (userId : String) (success : Bool)
    (ipAddress : String) : DBState :=
  { s with codeAttempts :=
      s.codeAttempts ++ [CodeAttempt.mk userId s.now success ipAddress] }

/-! ### Invite code operations (src/internal/db/db.go) -/

/-- Is the code active: not redeemed, not revoked, not expired
(expires_at > NOW())?  This is the three-way filter of FindActiveInviteCodes,
GetActiveInviteCodes and the locked re-check inside RedeemInviteCode. -/
def isActiveCode (s : DBState) (c : InviteCode) : Bool :=
  c.redeemedAt == none && c.revokedAt == none && decide (s.now < c.expiresAt)

/-- FindActiveInviteCodes: all active codes, across every pregnancy. -/
def findActiveInviteCodes (s : DBState) : List InviteCode :=
  s.inviteCodes.filter (fun c => isActiveCode s c)

/-- Next BIGSERIAL value for clingy_invite_codes in the model: one past the
largest id in the table. -/
def nextCodeId (s : DBState) : Nat :=
  (s.inviteCodes.map (fun c => c.id)).foldr max 0 + 1

/-- CreateInviteCode: insert one invite-code row; the serial id, creation
timestamp, and the NULL redemption and revocation columns come from the
table defaults. -/
def createInviteCode (s : DBState) (pregnancyId : Nat) (codeHash : BcryptHash)
    (role permission : String) (expiresAt : Nat) : DBState × InviteCode :=
  let row : InviteCode :=
    { id := nextCodeId s, pregnancyId := pregnancyId, codeHash := codeHash,
      role := role, permission := permission, createdAt := s.now,
      expiresAt := expiresAt, redeemedAt := none, redeemedBy := none,
      revokedAt := none }
  ({ s with inviteCodes := s.inviteCodes ++ [row] }, row)

/-- Next BIGSERIAL value for clingy_supporters in the model. -/
def nextSupporterIdOf (supporters : List Supporter) : Nat :=
  (supporters.map (fun x => x.id)).foldr max 0 + 1

/-- The supporter branch of RedeemInviteCode: INSERT .. ON CONFLICT
(pregnancy_id, user_id) DO UPDATE, as a function of exactly what the SQL
statement reads (the supporters table and the clock).  A conflicting row
(removed or not) is revived: display name, join time and card visibility
refreshed, removal cleared; its permission and originating-code columns are
untouched.  A fresh insert takes the column default permission read. -/
def upsertSupporter (supporters : List Supporter) (now : Nat) (pregnancyId : Nat)
    (userId displayName : String) (codeId : Nat) (displayCard : Bool) :
    List Supporter :=
  if supporters.any (fun x => x.pregnancyId == pregnancyId && x.userId == userId) then
    supporters.map (fun x =>
      if x.pregnancyId == pregnancyId && x.userId == userId then
        { x with displayName := some displayName, removedAt := none,
                 joinedAt := now, displayPartnerCard := some displayCard }
      else x)
  else
    supporters ++
      [{ id := nextSupporterIdOf supporters, pregnancyId := pregnancyId,
         userId := userId, displayName := some displayName,
         permission := some "read", joinedAt := now,
         invitedViaCodeId := some codeId, removedAt := none,
         displayPartnerCard := some displayCard }]

/-- Admin email constant from src/internal/db/db.go. -/
def adminEmail : String := "tsrlegends@gmail.com"

/-- RedeemInviteCode of db.go as one atomic transition (the transaction holds
the row lock from the re-check to the commit, so concurrent redemptions
serialise; the loser runs on the committed state).  Re-fetch the code under
lock requiring it still active, mark it redeemed, escalate the permission for
the admin email, then apply the role effect: father updates the pregnancy
partner columns, support upserts a supporter row.  The final SELECT of the
pregnancy returns its raw driver error (not ErrNotFound) if the row is
missing. -/
def redeemInviteCode (s : DBState) (codeId : Nat) (userId displayName email : String) :
    Except DBErr (DBState × Pregnancy × String) :=
  match s.inviteCodes.find? (fun c => c.id == codeId && isActiveCode s c) with
  | none => .error .notFound
  | some code =>
    let s1 : DBState := { s with inviteCodes := s.inviteCodes.map (fun c =>
        if c.id == codeId then
          { c with redeemedAt := some s.now, redeemedBy := some userId }
        else c) }
    let isAdmin : Bool := email == adminEmail
    let permission : String := if isAdmin then "write" else code.permission
    let s2 : DBState :=
      if code.role == "father" then
        { s1 with pregnancies := s1.pregnancies.map (fun p =>
            if p.id == code.pregnancyId then
              { p with partnerId := some userId,
                       partnerStatus := some "approved",
                       partnerPermission := some permission,
                       partnerName := some displayName,
                       displayPartnerCard := some (!isAdmin) }
            else p) }
      else
        { s1 with supporters := (upsertSupporter s1.supporters s1.now
            code.pregnancyId userId displayName codeId (!isAdmin)) }
    match s2.pregnancies.find? (fun p => p.id == code.pregnancyId) with
    | none => .error .storage
    | some pregnancy => .ok (s2, pregnancy, permission)

/-- RevokeInviteCode: stamp revoked_at on the code if it belongs to a
pregnancy owned by the caller and is neither redeemed nor already revoked;
ErrNotFound when no row qualifies. -/
def revokeInviteCode (s : DBState) (codeId : Nat) (ownerId : String) :
    Except DBErr DBState :=
  let hit (c : InviteCode) : Bool :=
    c.id == codeId
      && s.pregnancies.any (fun p => p.id == c.pregnancyId && p.ownerId == ownerId)
      && c.redeemedAt == none && c.revokedAt == none
  if s.inviteCodes.any hit then
    .ok { s with inviteCodes := s.inviteCodes.map (fun c =>
        if hit c then { c with revokedAt := some s.now } else c) }
  else .error .notFound

/-- RemoveSupporter: stamp removed_at on the supporter row if it belongs to a
pregnancy owned by the caller and is not already removed. -/
def removeSupporter (s : DBState) (supporterId : Nat) (ownerId : String) :
    Except DBErr DBState :=
  let hit (x : Supporter) : Bool :=
    x.id == supporterId
      && s.pregnancies.any (fun p => p.id == x.pregnancyId && p.ownerId == ownerId)
      && x.removedAt == none
  if s.supporters.any hit then
    .ok { s with supporters := s.supporters.map (fun x =>
        if hit x then { x with removedAt := some s.now } else x) }
  else .error .notFound

/-! ### Legacy pairing operations (src/internal/db/db.go) -/

/-- ApprovePairingRequest: require a pending request with this id resolved to
this target; atomically mark it approved and set the target-owned pregnancy's
partner columns. -/
def approvePairingRequest (s : DBState) (requestId : Nat)
    (targetId permission : String) : Except DBErr DBState :=
  match s.pairingRequests.find? (fun r =>
      r.id == requestId && r.targetId == some targetId && r.status == "pending") with
  | none => .error .notFound
  | some pr =>
    .ok { s with
      pairingRequests := s.pairingRequests.map (fun r =>
        if r.id == requestId then
          { r with status := "approved", permission := some permission,
                   resolvedAt := some s.now }
        else r),
      pregnancies := s.pregnancies.map (fun p =>
        if p.ownerId == targetId then
          { p with partnerId := some pr.requesterId,
                   partnerStatus := some "approved",
                   partnerPermission := some permission }
        else p) }

/-- DenyPairingRequest: mark a pending request owned by the target denied. -/
def denyPairingRequest (s : DBState) (requestId : Nat) (targetId : String) :
    Except DBErr DBState :=
  let hit (r : PairingRequest) : Bool :=
    r.id == requestId && r.targetId == some targetId && r.status == "pending"
  if s.pairingRequests.any hit then
    .ok { s with pairingRequests := s.pairingRequests.map (fun r =>
        if hit r then { r with status := "denied", resolvedAt := some s.now } else r) }
  else .error .notFound

/-- UpdatePartnerPermission: change the partner permission on the caller-owned
pregnancy that currently has a partner. -/
def updatePartnerPermission (s : DBState) (ownerId permission : String) :
    Except DBErr DBState :=
  let hit (p : Pregnancy) : Bool := p.ownerId == ownerId && p.partnerId != none
  if s.pregnancies.any hit then
    .ok { s with pregnancies := s.pregnancies.map (fun p =>
        if hit p then { p with partnerPermission := some permission } else p) }
  else .error .notFound

/-- RemovePairing: clear the partner columns, trying the caller as owner
first, then as partner. -/
def removePairing (s : DBState) (userId : String) : Except DBErr DBState :=
  let asOwner (p : Pregnancy) : Bool := p.ownerId == userId && p.partnerId != none
  let asPartner (p : Pregnancy) : Bool := p.partnerId == some userId
  if s.pregnancies.any asOwner then
    .ok { s with pregnancies := s.pregnancies.map (fun p =>
        if asOwner p then
          { p with partnerId := none, partnerStatus := none, partnerPermission := none }
        else p) }
  else if s.pregnancies.any asPartner then
    .ok { s with pregnancies := s.pregnancies.map (fun p =>
        if asPartner p then
          { p with partnerId := none, partnerStatus := none, partnerPermission := none }
        else p) }
  else .error .notFound

/-! ### Handler layer (src/internal/auth/auth.go) -/

/-- Outcome of the GenerateInviteCode handler, keeping the plaintext code on
success. -/
inductive GenResult where
  | ok (code : List Char) (s : DBState)
  | forbidden
  | validationError
  | conflict
deriving Repr, DecidableEq

/-- The GenerateInviteCode handler: only an owner may issue; role must be
father or support; a father code conflicts when the owner's pregnancy already
has a partner id; empty permission defaults to read and must then be read or
write; finally the code is generated from the random bytes, bcrypt-hashed and
stored with expiry 48 hours from now. -/
def generateInviteCodeHandler (s : DBState) (userId roleReq permReq : String)
    (randomBytes : Fin 10 → Nat) : GenResult :=
  match getPregnancyByOwner s userId with
  | none => .forbidden
  | some pregnancy =>
    if !(roleReq == "father" || roleReq == "support") then .validationError
    else if roleReq == "father" && pregnancy.partnerId != none then .conflict
    else
      let permission := if permReq == "" then "read" else permReq
      if !(permission == "read" || permission == "write") then .validationError
      else
        let code := generateInviteCode randomBytes
        let s2 := (createInviteCode s pregnancy.id (hashCode code) roleReq
          permission (s.now + codeExpiration)).1
        .ok code s2

/-- Outcome of the RedeemInviteCode handler. -/
inductive RedeemResult where
  | ok (role permission : String) (pregnancy : Pregnancy)
  | validationError
  | notFound
  | rateLimited
  | internalError
deriving Repr, DecidableEq

/-- The RedeemInviteCode handler after its rate-limit gate: reject and record
a failed attempt on bad format; scan the active codes linearly with VerifyCode;
no match records a failure and returns NotFound; a match is redeemed through
the transactional db operation, whose NotFound (lost race) also records a
failure; success records a successful attempt. -/
def redeemAfterRateLimit (s : DBState) (userId : String) (code : List Char)
    (displayName email ip : String) : RedeemResult × DBState :=
  if !isValidCodeFormat code then
    (.validationError, recordCodeAttempt s userId false ip)
  else
    match (findActiveInviteCodes s).find? (fun c => verifyCode code c.codeHash) with
    | none => (.notFound, recordCodeAttempt s userId false ip)
    | some matched =>
      match redeemInviteCode s matched.id userId displayName email with
      | .error .notFound => (.notFound, recordCodeAttempt s userId false ip)
      | .error .storage => (.internalError, recordCodeAttempt s userId false ip)
      | .ok (s2, pregnancy, actualPermission) =>
          (.ok matched.role actualPermission pregnancy,
            recordCodeAttempt s2 userId true ip)

/-- The RedeemInviteCode handler.  `countErr` is the error outcome of the
CountRecentCodeAttempts query; the Go condition `err == nil && attempts >= 5`
trips the throttle only when the query succeeded. -/
def redeemInviteCodeHandler (s : DBState) (countErr : Bool) (userId : String)
    (code : List Char) (displayName email ip : String) : RedeemResult × DBState :=
  if countErr = false ∧ 5 ≤ countRecentCodeAttempts s userId then
    (.rateLimited, s)
  else
    redeemAfterRateLimit s userId code displayName email ip

/-! ### The step relation: every embedded mutation of the shared store -/

/-- One mutating operation of the modelled subsystem, or a clock advance. -/
inductive Step : DBState → DBState → Prop where
  | createCode (s : DBState) (pid : Nat) (h : BcryptHash) (role perm : String)
      (exp : Nat) : Step s (createInviteCode s pid h role perm exp).1
  | redeem (s : DBState) (cid : Nat) (u d e : String) (t : DBState)
      (pr : Pregnancy) (pm : String)
      (hok : redeemInviteCode s cid u d e = .ok (t, pr, pm)) : Step s t
  | revoke (s : DBState) (cid : Nat) (o : String) (t : DBState)
      (hok : revokeInviteCode s cid o = .ok t) : Step s t
  | removeSup (s : DBState) (sid : Nat) (o : String) (t : DBState)
      (hok : removeSupporter s sid o = .ok t) : Step s t
  | approve (s : DBState) (rid : Nat) (tgt pm : String) (t : DBState)
      (hok : approvePairingRequest s rid tgt pm = .ok t) : Step s t
  | deny (s : DBState) (rid : Nat) (tgt : String) (t : DBState)
      (hok : denyPairingRequest s rid tgt = .ok t) : Step s t
  | updatePerm (s : DBState) (o pm : String) (t : DBState)
      (hok : updatePartnerPermission s o pm = .ok t) : Step s t
  | removePair (s : DBState) (u : String) (t : DBState)
      (hok : removePairing s u = .ok t) : Step s t
  | recordAttempt (s : DBState) (u : String) (ok : Bool) (ip : String) :
      Step s (recordCodeAttempt s u ok ip)
  | tick (s : DBState) (dt : Nat) : Step s { s with now := s.now + dt }

/-! ### Shared example fixtures for witnesses -/

/-- A pregnancy owned by alice with no partner, co-owner or supporters. -/
def exPreg : Pregnancy :=
  { id := 1, ownerId := "alice", partnerId := none, partnerStatus := none,
    partnerPermission := none, partnerName := none, displayPartnerCard := none,
    coownerId := none, coownerName := none }

/-- An active support-role invite code with stored permission write for
exPreg, hashed from the plaintext 2345-6789-AB. -/
def exCode : InviteCode :=
  { id := 1, pregnancyId := 1, codeHash := hashCode "2345-6789-AB".toList,
    role := "support", permission := "write", createdAt := 0, expiresAt := 100,
    redeemedAt := none, redeemedBy := none, revokedAt := none }

/-- A store holding exPreg and exCode at time 10. -/
def exState : DBState :=
  { pregnancies := [exPreg], supporters := [], inviteCodes := [exCode],
    codeAttempts := [], pairingRequests := [], now := 10 }

/-! ### Claim C7 -/

/-- C7: for every code c, verify(c, hash(c)) is true; verification only
depends on the normalization of the candidate, so any formatting variant of c
verifies against hash(c); and normalize is idempotent. -/
theorem verify_hash_roundtrip :
    (∀ code, verifyCode code (hashCode code) = true) ∧
    (∀ c c2, normalizeCode c2 = normalizeCode c →
      verifyCode c2 (hashCode c) = true) ∧
    (∀ code, normalizeCode (normalizeCode code) = normalizeCode code) := by
  refine ⟨?_, ?_, normalizeCode_idem⟩
  · intro code
    simp [verifyCode, hashCode]
  · intro c c2 h
    simp [verifyCode, hashCode, h]

/-- Witness for C7 at a concrete pair of formatting variants. -/
theorem verify_hash_roundtrip_witness :
    verifyCode " 23j5-678 9ab".toList (hashCode "23J5-6789-AB".toList) = true :=
  verify_hash_roundtrip.2.1 "23J5-6789-AB".toList " 23j5-678 9ab".toList (by decide)

/-! ### Claim C8 -/

theorem getD_mem_of_lt :
    ∀ (l : List Char) (n : Nat), n < l.length → ∀ d, l.getD n d ∈ l := by
  intro l
  induction l with
  | nil => intro n h d; simp at h
  | cons a t ih =>
    intro n h d
    cases n with
    | zero => simp [List.getD]
    | succ m =>
      have hm : m < t.length := by simpa using h
      simpa [List.getD] using Or.inr (by simpa [List.getD] using ih m hm d)

theorem alphabet_char_fixed : ∀ c ∈ codeAlphabet, c.toUpper = c := by decide

theorem alphabet_char_not_sep :
    ∀ c ∈ codeAlphabet, (c != '-') = true ∧ (c != ' ') = true := by decide

theorem generate_chars_mem (randomBytes : Fin 10 → Nat) :
    ∀ c ∈ (List.finRange 10).map
      (fun i => codeAlphabet.getD (randomBytes i % codeAlphabet.length) ' '),
      c ∈ codeAlphabet := by
  intro c hc
  obtain ⟨i, _, rfl⟩ := List.mem_map.mp hc
  exact getD_mem_of_lt codeAlphabet _
    (Nat.mod_lt _ (by decide : 0 < codeAlphabet.length)) ' '

theorem normalizeCode_grouped (g1 g2 g3 : List Char)
    (h1 : ∀ c ∈ g1, c ∈ codeAlphabet) (h2 : ∀ c ∈ g2, c ∈ codeAlphabet)
    (h3 : ∀ c ∈ g3, c ∈ codeAlphabet) :
    normalizeCode (g1 ++ '-' :: (g2 ++ '-' :: g3)) = g1 ++ (g2 ++ g3) := by
  have hfix : ∀ (l : List Char), (∀ c ∈ l, c ∈ codeAlphabet) →
      l.map Char.toUpper = l :=
    fun l hl => map_id_of_fixed l (fun c hc => alphabet_char_fixed c (hl c hc))
  have hd : ∀ (l : List Char), (∀ c ∈ l, c ∈ codeAlphabet) →
      l.filter (fun c => c != '-') = l :=
    fun l hl => List.filter_eq_self.mpr
      (fun c hc => (alphabet_char_not_sep c (hl c hc)).1)
  have hs : ∀ (l : List Char), (∀ c ∈ l, c ∈ codeAlphabet) →
      l.filter (fun c => c != ' ') = l :=
    fun l hl => List.filter_eq_self.mpr
      (fun c hc => (alphabet_char_not_sep c (hl c hc)).2)
  have hup : Char.toUpper '-' = '-' := by decide
  simp [normalizeCode, List.map_append, List.filter_append, hup,
    hfix g1 h1, hfix g2 h2, hfix g3 h3, hd g1 h1, hd g2 h2, hd g3 h3,
    hs g1 h1, hs g2 h2, hs g3 h3]

set_option maxRecDepth 40000 in
/-- Counterexample for C8: the alphabet has 31 symbols, not 32, and the
byte-modulo selection is accordingly not uniform: 9 of the 256 byte values
select the first symbol while only 8 select the last. -/
theorem generate_alphabet_counterexample :
    (codeAlphabet.length == 32) = false ∧ codeAlphabet.length = 31 ∧
    (List.range 256).countP (fun b => b % codeAlphabet.length == 0) = 9 ∧
    (List.range 256).countP (fun b => b % codeAlphabet.length == 30) = 8 := by
  refine ⟨by decide, by decide, by decide, by decide⟩

/-- C8 as amended: every code produced by generate() from any ten random bytes
consists of ten characters of the 31-symbol alphabet (which excludes 0, O, 1,
I and L), formatted as dash-separated groups of 4, 4 and 2 characters, and
satisfies validateFormat. -/
theorem generate_wellformed (randomBytes : Fin 10 → Nat) :
    (∃ g1 g2 g3 : List Char,
      generateInviteCode randomBytes = g1 ++ '-' :: (g2 ++ '-' :: g3) ∧
      g1.length = 4 ∧ g2.length = 4 ∧ g3.length = 2 ∧
      ∀ c ∈ g1 ++ g2 ++ g3, c ∈ codeAlphabet) ∧
    (normalizeCode (generateInviteCode randomBytes)).length = 10 ∧
    isValidCodeFormat (generateInviteCode randomBytes) = true ∧
    codeAlphabet.length = 31 ∧
    (codeAlphabet.contains '0') = false ∧ (codeAlphabet.contains 'O') = false ∧
    (codeAlphabet.contains '1') = false ∧ (codeAlphabet.contains 'I') = false ∧
    (codeAlphabet.contains 'L') = false := by
  set chars := (List.finRange 10).map
    (fun i => codeAlphabet.getD (randomBytes i % codeAlphabet.length) ' ') with hchars
  have hlen : chars.length = 10 := by
    rw [hchars, List.length_map, List.length_finRange]
  have hmem : ∀ c ∈ chars, c ∈ codeAlphabet := generate_chars_mem randomBytes
  have hsplit : generateInviteCode randomBytes =
      chars.take 4 ++ '-' :: ((chars.drop 4).take 4 ++ '-' :: chars.drop 8) := by
    rw [generateInviteCode]
    simp [hchars]
  have htake4 : ∀ c ∈ chars.take 4, c ∈ codeAlphabet :=
    fun c hc => hmem c (List.mem_of_mem_take hc)
  have hmid : ∀ c ∈ (chars.drop 4).take 4, c ∈ codeAlphabet :=
    fun c hc => hmem c (List.mem_of_mem_drop (List.mem_of_mem_take hc))
  have hdrop8 : ∀ c ∈ chars.drop 8, c ∈ codeAlphabet :=
    fun c hc => hmem c (List.mem_of_mem_drop hc)
  have hrecomp : chars.take 4 ++ ((chars.drop 4).take 4 ++ chars.drop 8) = chars := by
    have h2 : (chars.drop 4).drop 4 = chars.drop 8 := List.drop_drop 4 4 chars
    rw [← h2, List.take_append_drop, List.take_append_drop]
  have hnorm : normalizeCode (generateInviteCode randomBytes) = chars := by
    rw [hsplit, normalizeCode_grouped _ _ _ htake4 hmid hdrop8, hrecomp]
  refine ⟨⟨chars.take 4, (chars.drop 4).take 4, chars.drop 8, hsplit, ?_, ?_, ?_, ?_⟩,
    ?_, ?_, by decide, by decide, by decide, by decide, by decide, by decide⟩
  · rw [List.length_take]; omega
  · rw [List.length_take, List.length_drop]; omega
  · rw [List.length_drop]; omega
  · intro c hc
    rcases List.mem_append.mp hc with hc | hc
    · rcases List.mem_append.mp hc with hc | hc
      · exact htake4 c hc
      · exact hmid c hc
    · exact hdrop8 c hc
  · rw [hnorm, hlen]
  · rw [isValidCodeFormat]
    simp only [hnorm, hlen]
    rw [Bool.and_eq_true]
    refine ⟨rfl, List.all_eq_true.mpr ?_⟩
    intro c hc
    exact List.elem_eq_true_of_mem (hmem c hc)

/-! ### Generic list helpers -/

theorem find?_eq_some_of_unique {α : Type} (p : α → Bool) (l : List α) (a : α)
    (ha : a ∈ l) (hpa : p a = true) (huniq : ∀ b ∈ l, p b = true → b = a) :
    l.find? p = some a := by
  induction l with
  | nil => cases ha
  | cons x t ih =>
    by_cases hx : p x = true
    · rw [List.find?_cons_of_pos _ hx, huniq x (List.mem_cons_self x t) hx]
    · rw [List.find?_cons_of_neg _ (by simpa using hx)]
      rcases List.mem_cons.mp ha with rfl | ha2
      · exact absurd hpa hx
      · exact ih ha2 (fun b hb hpb => huniq b (List.mem_cons_of_mem x hb) hpb)

theorem le_foldr_max (l : List Nat) (x : Nat) (hx : x ∈ l) :
    x ≤ l.foldr max 0 := by
  induction l with
  | nil => cases hx
  | cons a t ih =>
    rcases List.mem_cons.mp hx with rfl | hx2
    · exact Nat.le_max_left _ _
    · exact Nat.le_trans (ih hx2) (Nat.le_max_right _ _)

/-! ### Claim C1 -/

/-- C1: access resolution tries owner, co-owner, approved partner, active
supporter in that order and stops at the first match: a user who owns a
pregnancy (the unique one with that owner) resolves as owner with write
permission, whatever else the user is configured as; and when none of the four
lookups match, resolution signals NotFound. -/
theorem resolve_owner_priority :
    (∀ (s : DBState) (uid : String) (p : Pregnancy),
        p ∈ s.pregnancies → p.ownerId = uid →
        (∀ q ∈ s.pregnancies, q.ownerId = uid → q = p) →
        getMyRole s uid = some ("owner", "write", p) ∧
        getAccessiblePregnancy s uid = some (p, "write")) ∧
    (∀ (s : DBState) (uid : String),
        getPregnancyByOwner s uid = none → getPregnancyByCoowner s uid = none →
        getPregnancyByPartner s uid = none → getPregnancyBySupporter s uid = none →
        getMyRole s uid = none ∧ getAccessiblePregnancy s uid = none) := by
  constructor
  · intro s uid p hp hown huniq
    have hfind : getPregnancyByOwner s uid = some p := by
      unfold getPregnancyByOwner
      refine find?_eq_some_of_unique _ _ p hp (by simp [hown]) ?_
      intro b hb hpb
      exact huniq b hb (by simpa using hpb)
    constructor
    · unfold getMyRole
      rw [hfind]
    · unfold getAccessiblePregnancy
      rw [hfind]
  · intro s uid h1 h2 h3 h4
    constructor
    · unfold getMyRole
      rw [h1, h2, h3, h4]
    · unfold getAccessiblePregnancy
      rw [h1, h2, h3, h4]

/-- A contrived state where alice is simultaneously owner, approved partner
and active supporter of the same pregnancy. -/
def exPregMixed : Pregnancy :=
  { id := 7, ownerId := "alice", partnerId := some "alice",
    partnerStatus := some "approved", partnerPermission := some "read",
    partnerName := some "A", displayPartnerCard := none, coownerId := none,
    coownerName := none }

/-- An active supporter row making alice a supporter of exPregMixed. -/
def exSupMixed : Supporter :=
  { id := 1, pregnancyId := 7, userId := "alice", displayName := none,
    permission := some "read", joinedAt := 0, invitedViaCodeId := none,
    removedAt := none, displayPartnerCard := none }

/-- Store for the C1 witness. -/
def exStateMixed : DBState :=
  { pregnancies := [exPregMixed], supporters := [exSupMixed], inviteCodes := [],
    codeAttempts := [], pairingRequests := [], now := 0 }

/-- Witness for C1: in the contrived owner-partner-supporter state, alice
resolves as owner with write permission. -/
theorem resolve_owner_priority_witness :
    getMyRole exStateMixed "alice" = some ("owner", "write", exPregMixed) ∧
    getAccessiblePregnancy exStateMixed "alice" = some (exPregMixed, "write") :=
  resolve_owner_priority.1 exStateMixed "alice" exPregMixed
    (by decide) (by decide) (by decide)

/-! ### Anatomy of a successful redemption -/

theorem redeem_ok_elim {s : DBState} {cid : Nat} {u d e : String}
    {t : DBState} {pr : Pregnancy} {pm : String}
    (h : redeemInviteCode s cid u d e = .ok (t, pr, pm)) :
    ∃ code,
      s.inviteCodes.find? (fun c => c.id == cid && isActiveCode s c) = some code ∧
      pm = (if (e == adminEmail) = true then "write" else code.permission) ∧
      t.now = s.now ∧
      t.codeAttempts = s.codeAttempts ∧
      t.pairingRequests = s.pairingRequests ∧
      t.inviteCodes = s.inviteCodes.map (fun c =>
        if c.id == cid then
          { c with redeemedAt := some s.now, redeemedBy := some u }
        else c) ∧
      ((code.role == "father") = true →
        t.supporters = s.supporters ∧
        t.pregnancies = s.pregnancies.map (fun p =>
          if p.id == code.pregnancyId then
            { p with partnerId := some u, partnerStatus := some "approved",
                     partnerPermission := some pm, partnerName := some d,
                     displayPartnerCard := some (!(e == adminEmail)) }
          else p)) ∧
      ((code.role == "father") = false →
        t.pregnancies = s.pregnancies ∧
        t.supporters = upsertSupporter s.supporters s.now code.pregnancyId u d cid
          (!(e == adminEmail))) ∧
      t.pregnancies.find? (fun p => p.id == code.pregnancyId) = some pr := by
  unfold redeemInviteCode at h
  cases hfind : s.inviteCodes.find? (fun c => c.id == cid && isActiveCode s c) with
  | none =>
    rw [hfind] at h
    exact absurd h (by simp)
  | some code =>
    rw [hfind] at h
    dsimp only at h
    refine ⟨code, rfl, ?_⟩
    by_cases hrole : (code.role == "father") = true
    · rw [if_pos hrole] at h
      cases hfp : (s.pregnancies.map (fun p =>
          if p.id == code.pregnancyId then
            { p with partnerId := some u, partnerStatus := some "approved",
                     partnerPermission := some (if (e == adminEmail) = true then "write"
                       else code.permission),
                     partnerName := some d,
                     displayPartnerCard := some (!(e == adminEmail)) }
          else p)).find? (fun p => p.id == code.pregnancyId) with
      | none =>
        rw [hfp] at h
        exact absurd h (by simp)
      | some preg =>
        rw [hfp] at h
        injection h with h1
        injection h1 with h2 h3
        injection h3 with h4 h5
        subst h2
        subst h4
        subst h5
        refine ⟨rfl, rfl, rfl, rfl, rfl, fun _ => ⟨rfl, rfl⟩, ?_, hfp⟩
        intro hcontra
        rw [hrole] at hcontra
        cases hcontra
    · rw [if_neg hrole] at h
      cases hfp : s.pregnancies.find? (fun p => p.id == code.pregnancyId) with
      | none =>
        rw [hfp] at h
        exact absurd h (by simp)
      | some preg =>
        rw [hfp] at h
        injection h with h1
        injection h1 with h2 h3
        injection h3 with h4 h5
        subst h2
        subst h4
        subst h5
        refine ⟨rfl, rfl, rfl, rfl, rfl, ?_, fun _ => ⟨rfl, rfl⟩, hfp⟩
        intro hcontra
        exact absurd hcontra hrole

/-! ### Claim C2 -/

/-- The code with id `i` exists and carries a redemption or revocation
timestamp, so it can never again satisfy the active filter. -/
def codeDead (s : DBState) (i : Nat) : Prop :=
  (∃ c ∈ s.inviteCodes, c.id = i) ∧
  ∀ c ∈ s.inviteCodes, c.id = i → (c.redeemedAt ≠ none ∨ c.revokedAt ≠ none)

theorem codeDead_map {l : List InviteCode} {f : InviteCode → InviteCode} {i : Nat}
    (hid : ∀ c, (f c).id = c.id)
    (hdead : ∀ c, (c.redeemedAt ≠ none ∨ c.revokedAt ≠ none) →
      ((f c).redeemedAt ≠ none ∨ (f c).revokedAt ≠ none))
    (hex : ∃ c ∈ l, c.id = i)
    (hall : ∀ c ∈ l, c.id = i → (c.redeemedAt ≠ none ∨ c.revokedAt ≠ none)) :
    (∃ c ∈ l.map f, c.id = i) ∧
    ∀ c ∈ l.map f, c.id = i → (c.redeemedAt ≠ none ∨ c.revokedAt ≠ none) := by
  constructor
  · obtain ⟨c, hc, hci⟩ := hex
    exact ⟨f c, List.mem_map_of_mem f hc, by rw [hid c, hci]⟩
  · intro c' hc' hi
    obtain ⟨c, hc, rfl⟩ := List.mem_map.mp hc'
    exact hdead c (hall c hc (by rw [← hid c, hi]))

theorem redeem_mark_dead (cid : Nat) (u : String) (now : Nat) :
    ∀ c : InviteCode,
      ((if c.id == cid then
          { c with redeemedAt := some now, redeemedBy := some u }
        else c).redeemedAt ≠ none ∨
       (if c.id == cid then
          { c with redeemedAt := some now, redeemedBy := some u }
        else c).revokedAt ≠ none) ∨
      ((if c.id == cid then
          { c with redeemedAt := some now, redeemedBy := some u }
        else c) = c) := by
  intro c
  by_cases hc : (c.id == cid) = true
  · rw [if_pos hc]
    exact Or.inl (Or.inl (by simp))
  · rw [if_neg hc]
    exact Or.inr rfl

theorem step_preserves_codeDead {s t : DBState} (hst : Step s t) (i : Nat)
    (hd : codeDead s i) : codeDead t i := by
  obtain ⟨hex, hall⟩ := hd
  cases hst with
  | createCode pid hh role perm exp =>
    constructor
    · obtain ⟨c, hc, hci⟩ := hex
      exact ⟨c, List.mem_append_left _ hc, hci⟩
    · intro c hc hci
      rcases List.mem_append.mp hc with hc2 | hc2
      · exact hall c hc2 hci
      · exfalso
        have hrow : c.id = nextCodeId s := by
          rcases List.mem_singleton.mp hc2 with rfl
          rfl
        obtain ⟨c0, hc0, hc0i⟩ := hex
        have hle : c0.id ≤ (s.inviteCodes.map (fun c => c.id)).foldr max 0 :=
          le_foldr_max _ _ (List.mem_map_of_mem _ hc0)
        rw [nextCodeId] at hrow
        omega
  | redeem cid u d e t2 pr pm hok =>
    obtain ⟨code, _, _, _, _, _, hcodes, _⟩ := redeem_ok_elim hok
    rw [codeDead, hcodes]
    refine codeDead_map (fun c => ?_) (fun c hdc => ?_) hex hall
    · by_cases hc : (c.id == cid) = true
      · rw [if_pos hc]
      · rw [if_neg hc]
    · rcases redeem_mark_dead cid u s.now c with hmark | heq
      · exact hmark
      · rw [heq]; exact hdc
  | revoke cid o t2 hok =>
    unfold revokeInviteCode at hok
    by_cases hany : (s.inviteCodes.any (fun c =>
        c.id == cid
          && s.pregnancies.any (fun p => p.id == c.pregnancyId && p.ownerId == o)
          && c.redeemedAt == none && c.revokedAt == none)) = true
    · rw [if_pos hany] at hok
      injection hok with hok2
      subst hok2
      rw [codeDead]
      refine codeDead_map (fun c => ?_) (fun c hdc => ?_) hex hall
      · by_cases hc : (c.id == cid
            && s.pregnancies.any (fun p => p.id == c.pregnancyId && p.ownerId == o)
            && c.redeemedAt == none && c.revokedAt == none) = true
        · rw [if_pos hc]
        · rw [if_neg hc]
      · by_cases hc : (c.id == cid
            && s.pregnancies.any (fun p => p.id == c.pregnancyId && p.ownerId == o)
            && c.redeemedAt == none && c.revokedAt == none) = true
        · rw [if_pos hc]
          exact Or.inr (by simp)
        · rw [if_neg hc]
          exact hdc
    · rw [if_neg hany] at hok
      cases hok
  | removeSup sid o t2 hok =>
    unfold removeSupporter at hok
    by_cases hany : (s.supporters.any (fun x =>
        x.id == sid
          && s.pregnancies.any (fun p => p.id == x.pregnancyId && p.ownerId == o)
          && x.removedAt == none)) = true
    · rw [if_pos hany] at hok
      injection hok with hok2
      subst hok2
      exact ⟨hex, hall⟩
    · rw [if_neg hany] at hok
      cases hok
  | approve rid tgt pm t2 hok =>
    unfold approvePairingRequest at hok
    cases hfind : s.pairingRequests.find? (fun r =>
        r.id == rid && r.targetId == some tgt && r.status == "pending") with
    | none => rw [hfind] at hok; cases hok
    | some pr =>
      rw [hfind] at hok
      injection hok with hok2
      subst hok2
      exact ⟨hex, hall⟩
  | deny rid tgt t2 hok =>
    unfold denyPairingRequest at hok
    by_cases hany : (s.pairingRequests.any (fun r =>
        r.id == rid && r.targetId == some tgt && r.status == "pending")) = true
    · rw [if_pos hany] at hok
      injection hok with hok2
      subst hok2
      exact ⟨hex, hall⟩
    · rw [if_neg hany] at hok
      cases hok
  | updatePerm o pm t2 hok =>
    unfold updatePartnerPermission at hok
    by_cases hany : (s.pregnancies.any (fun p =>
        p.ownerId == o && p.partnerId != none)) = true
    · rw [if_pos hany] at hok
      injection hok with hok2
      subst hok2
      exact ⟨hex, hall⟩
    · rw [if_neg hany] at hok
      cases hok
  | removePair u t2 hok =>
    unfold removePairing at hok
    by_cases hown : (s.pregnancies.any (fun p =>
        p.ownerId == u && p.partnerId != none)) = true
    · rw [if_pos hown] at hok
      injection hok with hok2
      subst hok2
      exact ⟨hex, hall⟩
    · rw [if_neg hown] at hok
      by_cases hptn : (s.pregnancies.any (fun p => p.partnerId == some u)) = true
      · rw [if_pos hptn] at hok
        injection hok with hok2
        subst hok2
        exact ⟨hex, hall⟩
      · rw [if_neg hptn] at hok
        cases hok
  | recordAttempt u ok ip =>
    exact ⟨hex, hall⟩
  | tick dt =>
    exact ⟨hex, hall⟩

/-- C2: an invite code is redeemed successfully at most once.  A successful
redemption requires the code to pass the locked active re-check and stamps its
redemption timestamp; any state whose copy of the code carries a redemption or
revocation timestamp answers NotFound to a redemption attempt by any user; in
particular redeeming immediately again after a success fails; and the dead
state of a code survives every modelled operation, so the code is permanently
inactive. -/
theorem redeem_at_most_once :
    (∀ (s : DBState) (cid : Nat) (u d e : String) (t : DBState) (pr : Pregnancy)
        (pm : String), redeemInviteCode s cid u d e = .ok (t, pr, pm) →
        codeDead t cid) ∧
    (∀ (s : DBState) (cid : Nat), codeDead s cid → ∀ u d e,
        redeemInviteCode s cid u d e = .error .notFound) ∧
    (∀ (s : DBState) (cid : Nat) (u d e : String) (t : DBState) (pr : Pregnancy)
        (pm : String) (u2 d2 e2 : String),
        redeemInviteCode s cid u d e = .ok (t, pr, pm) →
        redeemInviteCode t cid u2 d2 e2 = .error .notFound) ∧
    (∀ (s t : DBState) (i : Nat), Relation.ReflTransGen Step s t →
        codeDead s i → codeDead t i) := by
  have hmk : ∀ (s : DBState) (cid : Nat) (u d e : String) (t : DBState)
      (pr : Pregnancy) (pm : String),
      redeemInviteCode s cid u d e = .ok (t, pr, pm) → codeDead t cid := by
    intro s cid u d e t pr pm h
    obtain ⟨code, hfind, _, _, _, _, hcodes, _⟩ := redeem_ok_elim h
    have hcmem : code ∈ s.inviteCodes := List.mem_of_find?_eq_some hfind
    have hcpred := List.find?_some hfind
    have hcid : code.id = cid := by
      rw [Bool.and_eq_true] at hcpred
      simpa using hcpred.1
    rw [codeDead, hcodes]
    constructor
    · refine ⟨_, List.mem_map_of_mem
        (fun c => if c.id == cid then
          { c with redeemedAt := some s.now, redeemedBy := some u } else c) hcmem, ?_⟩
      rw [if_pos (by simp [hcid])]
      exact hcid
    · intro c' hc' hci
      obtain ⟨c, hc, rfl⟩ := List.mem_map.mp hc'
      by_cases h2 : (c.id == cid) = true
      · rw [if_pos h2]
        exact Or.inl (by simp)
      · rw [if_neg h2] at hci ⊢
        exact absurd (by simp [hci]) h2
  have hdead : ∀ (s : DBState) (cid : Nat), codeDead s cid → ∀ u d e,
      redeemInviteCode s cid u d e = .error .notFound := by
    intro s cid hd u d e
    obtain ⟨_, hall⟩ := hd
    have hnone : s.inviteCodes.find? (fun c => c.id == cid && isActiveCode s c) = none := by
      rw [List.find?_eq_none]
      intro c hc hpred
      rw [Bool.and_eq_true] at hpred
      have hci : c.id = cid := by simpa using hpred.1
      have hact := hpred.2
      rw [isActiveCode, Bool.and_eq_true, Bool.and_eq_true] at hact
      rcases hall c hc hci with hdr | hdr
      · exact hdr (by simpa using hact.1.1)
      · exact hdr (by simpa using hact.1.2)
    unfold redeemInviteCode
    rw [hnone]
  refine ⟨hmk, hdead, ?_, ?_⟩
  · intro s cid u d e t pr pm u2 d2 e2 h
    exact hdead t cid (hmk s cid u d e t pr pm h) u2 d2 e2
  · intro s t i hst hd
    induction hst with
    | refl => exact hd
    | tail h1 h2 ih => exact step_preserves_codeDead h2 i ih

/-- The supporter row created for bob by redeeming exCode. -/
def exSupBob : Supporter :=
  { id := 1, pregnancyId := 1, userId := "bob", displayName := some "Bob",
    permission := some "read", joinedAt := 10, invitedViaCodeId := some 1,
    removedAt := none, displayPartnerCard := some true }

/-- The invite code exCode once redeemed by bob. -/
def exCodeRedeemed : InviteCode :=
  { exCode with redeemedAt := some 10, redeemedBy := some "bob" }

/-- The store exState after bob redeems the support code. -/
def exRedeemed : DBState :=
  { pregnancies := [exPreg], supporters := [exSupBob],
    inviteCodes := [exCodeRedeemed], codeAttempts := [], pairingRequests := [],
    now := 10 }

/-- Witness for C2: after bob redeems the concrete support code, a second
redemption attempt of the same code by carol returns NotFound. -/
theorem redeem_at_most_once_witness :
    redeemInviteCode exRedeemed 1 "carol" "Carol" "c@c.c" = .error .notFound :=
  redeem_at_most_once.2.2.1 exState 1 "bob" "Bob" "x@y.z" exRedeemed exPreg "write"
    "carol" "Carol" "c@c.c" rfl

/-! ### Claim C3 -/

/-- The fresh supporter row the upsert inserts when no row for the
(pregnancy, user) pair exists. -/
def freshSupporterRow (supporters : List Supporter) (now pid : Nat)
    (u d : String) (cid : Nat) (card : Bool) : Supporter :=
  { id := nextSupporterIdOf supporters, pregnancyId := pid, userId := u,
    displayName := some d, permission := some "read", joinedAt := now,
    invitedViaCodeId := some cid, removedAt := none,
    displayPartnerCard := some card }

theorem upsertSupporter_find (supporters : List Supporter) (now pid : Nat)
    (u d : String) (cid : Nat) (card : Bool) :
    ∃ row, (upsertSupporter supporters now pid u d cid card).find?
        (fun x => x.pregnancyId == pid && x.userId == u) = some row ∧
      row.pregnancyId = pid ∧ row.userId = u ∧ row.displayName = some d ∧
      row.removedAt = none ∧ row.displayPartnerCard = some card := by
  unfold upsertSupporter
  by_cases hany : (supporters.any
      (fun x => x.pregnancyId == pid && x.userId == u)) = true
  · rw [if_pos hany]
    obtain ⟨x0, hx0, hkeys⟩ := List.any_eq_true.mp hany
    set g : Supporter → Supporter := fun x =>
      if x.pregnancyId == pid && x.userId == u then
        { x with displayName := some d, removedAt := none,
                 joinedAt := now, displayPartnerCard := some card }
      else x with hg
    have hsome : ((supporters.map g).find?
        (fun x => x.pregnancyId == pid && x.userId == u)).isSome := by
      rw [List.find?_isSome]
      refine ⟨g x0, List.mem_map_of_mem g hx0, ?_⟩
      rw [hg]
      dsimp only
      rw [if_pos hkeys]
      simpa using hkeys
    obtain ⟨row, hrow⟩ := Option.isSome_iff_exists.mp hsome
    refine ⟨row, hrow, ?_⟩
    have hpred := List.find?_some hrow
    have hmem := List.mem_of_find?_eq_some hrow
    obtain ⟨x1, hx1, hgx1⟩ := List.mem_map.mp hmem
    by_cases hk1 : (x1.pregnancyId == pid && x1.userId == u) = true
    · rw [hg] at hgx1
      dsimp only at hgx1
      rw [if_pos hk1] at hgx1
      rw [← hgx1]
      rw [Bool.and_eq_true] at hk1
      exact ⟨by simpa using hk1.1, by simpa using hk1.2, rfl, rfl, rfl⟩
    · exfalso
      rw [hg] at hgx1
      dsimp only at hgx1
      rw [if_neg hk1] at hgx1
      rw [← hgx1] at hpred
      exact hk1 hpred
  · rw [if_neg hany]
    have hnone : supporters.find?
        (fun x => x.pregnancyId == pid && x.userId == u) = none := by
      rw [List.find?_eq_none]
      intro x hx hpx
      exact hany (List.any_eq_true.mpr ⟨x, hx, hpx⟩)
    rw [List.find?_append, hnone, Option.none_or]
    refine ⟨freshSupporterRow supporters now pid u d cid card, ?_, rfl, rfl, rfl, rfl, rfl⟩
    exact List.find?_cons_of_pos _ (by simp [freshSupporterRow])

/-- The display-card value of the row a redemption wrote: the partner card on
the pregnancy for a father-role code, the supporter row card for a
support-role code. -/
def redeemedRowCard (t : DBState) (code : InviteCode) (u : String) :
    Option (Option Bool) :=
  if code.role == "father" then
    (t.pregnancies.find? (fun p => p.id == code.pregnancyId)).map
      (fun p => p.displayPartnerCard)
  else
    (t.supporters.find?
      (fun x => x.pregnancyId == code.pregnancyId && x.userId == u)).map
      (fun x => x.displayPartnerCard)

/-- C3: a redemption whose supplied email is the configured admin address
returns effective permission write regardless of the code's stored permission
and writes display-card false into the resulting partner or supporter row; any
other email keeps the code's stored permission and writes display-card true. -/
theorem redeem_admin_email_override :
    ∀ (s : DBState) (cid : Nat) (u d e : String) (t : DBState) (pr : Pregnancy)
      (pm : String) (code : InviteCode),
      redeemInviteCode s cid u d e = .ok (t, pr, pm) →
      s.inviteCodes.find? (fun c => c.id == cid && isActiveCode s c) = some code →
      ((e = adminEmail →
          pm = "write" ∧ redeemedRowCard t code u = some (some false)) ∧
       (e ≠ adminEmail →
          pm = code.permission ∧ redeemedRowCard t code u = some (some true))) := by
  intro s cid u d e t pr pm code h hfind
  obtain ⟨code2, hfind2, hpm, _, _, _, _, hfather, hsupport, hfp⟩ := redeem_ok_elim h
  rw [hfind] at hfind2
  injection hfind2 with hcode2
  subst hcode2
  have hcard : redeemedRowCard t code u = some (some (!(e == adminEmail))) := by
    rw [redeemedRowCard]
    by_cases hrole : (code.role == "father") = true
    · rw [if_pos hrole]
      obtain ⟨_, hpregs⟩ := hfather hrole
      rw [hpregs] at hfp ⊢
      rw [hfp]
      have hmem := List.mem_of_find?_eq_some hfp
      have hpred := List.find?_some hfp
      obtain ⟨p0, hp0, hgp0⟩ := List.mem_map.mp hmem
      by_cases hk : (p0.id == code.pregnancyId) = true
      · rw [if_pos hk] at hgp0
        rw [← hgp0]
        simp
      · rw [if_neg hk] at hgp0
        rw [← hgp0] at hpred
        exact absurd hpred hk
    · rw [if_neg hrole]
      obtain ⟨_, hsups⟩ := hsupport (by simpa using hrole)
      rw [hsups]
      obtain ⟨row, hrow, _, _, _, _, hcard⟩ :=
        upsertSupporter_find s.supporters s.now code.pregnancyId u d cid
          (!(e == adminEmail))
      rw [hrow]
      simp [hcard]
  constructor
  · intro he
    have hbe : (e == adminEmail) = true := by simp [he]
    rw [hbe] at hpm hcard
    exact ⟨by simpa using hpm, by simpa using hcard⟩
  · intro he
    have hbe : (e == adminEmail) = false := by simp [he]
    rw [hbe] at hpm hcard
    exact ⟨by simpa using hpm, by simpa using hcard⟩

/-- Witness for C3 at the concrete support-code redemption by a non-admin
email: permission is the stored one and the supporter card shows. -/
theorem redeem_admin_email_override_witness :
    "write" = exCode.permission ∧
    redeemedRowCard exRedeemed exCode "bob" = some (some true) :=
  (redeem_admin_email_override exState 1 "bob" "Bob" "x@y.z" exRedeemed exPreg
    "write" exCode rfl rfl).2 (by decide)

/-! ### Claim C9 -/

theorem redeem_ok_of_active (s : DBState) (cid : Nat) (u d e : String)
    (code : InviteCode)
    (hfind : s.inviteCodes.find? (fun c => c.id == cid && isActiveCode s c) =
      some code)
    (hpreg : ∃ p ∈ s.pregnancies, p.id = code.pregnancyId) :
    ∃ t pr pm, redeemInviteCode s cid u d e = .ok (t, pr, pm) := by
  unfold redeemInviteCode
  rw [hfind]
  dsimp only
  obtain ⟨p, hp, hpid⟩ := hpreg
  by_cases hrole : (code.role == "father") = true
  · rw [if_pos hrole]
    set f : Pregnancy → Pregnancy := fun p =>
      if p.id == code.pregnancyId then
        { p with partnerId := some u, partnerStatus := some "approved",
                 partnerPermission := some (if (e == adminEmail) = true then "write"
                   else code.permission),
                 partnerName := some d,
                 displayPartnerCard := some (!(e == adminEmail)) }
      else p with hf
    have hsome : ((s.pregnancies.map f).find?
        (fun q => q.id == code.pregnancyId)).isSome := by
      rw [List.find?_isSome]
      refine ⟨f p, List.mem_map_of_mem f hp, ?_⟩
      rw [hf]
      dsimp only
      rw [if_pos (by simp [hpid])]
      simp [hpid]
    obtain ⟨preg2, hpreg2⟩ := Option.isSome_iff_exists.mp hsome
    rw [hpreg2]
    exact ⟨_, _, _, rfl⟩
  · rw [if_neg hrole]
    have hsome : ((s.pregnancies.find? (fun q => q.id == code.pregnancyId))).isSome := by
      rw [List.find?_isSome]
      exact ⟨p, hp, by simp [hpid]⟩
    obtain ⟨preg2, hpreg2⟩ := Option.isSome_iff_exists.mp hsome
    rw [hpreg2]
    exact ⟨_, _, _, rfl⟩

/-- C9: redeeming a father-role code updates the pregnancy partner columns
unconditionally: even when the pregnancy already has an approved partner v,
the redemption succeeds and every copy of the pregnancy row afterwards names
the redeemer as the approved partner, silently replacing v; no partner check
guards the redemption (the at-most-one-partner precondition lives only in the
issuing handler). -/
theorem redeem_father_unconditional :
    ∀ (s : DBState) (cid : Nat) (u d e : String) (code : InviteCode)
      (p : Pregnancy) (v : String),
      s.inviteCodes.find? (fun c => c.id == cid && isActiveCode s c) = some code →
      (code.role == "father") = true →
      p ∈ s.pregnancies → p.id = code.pregnancyId →
      p.partnerId = some v → p.partnerStatus = some "approved" →
      ∃ t pr pm, redeemInviteCode s cid u d e = .ok (t, pr, pm) ∧
        ∀ q ∈ t.pregnancies, q.id = code.pregnancyId →
          q.partnerId = some u ∧ q.partnerStatus = some "approved" ∧
          q.partnerPermission = some pm ∧ q.partnerName = some d := by
  intro s cid u d e code p v hfind hrole hp hpid hpv hpapp
  obtain ⟨t, pr, pm, hok⟩ :=
    redeem_ok_of_active s cid u d e code hfind ⟨p, hp, hpid⟩
  refine ⟨t, pr, pm, hok, ?_⟩
  obtain ⟨code2, hfind2, _, _, _, _, _, hfather, _, _⟩ := redeem_ok_elim hok
  rw [hfind] at hfind2
  injection hfind2 with hc2
  subst hc2
  obtain ⟨_, hpregs⟩ := hfather hrole
  rw [hpregs]
  intro q hq hqid
  obtain ⟨p0, hp0, hgp0⟩ := List.mem_map.mp hq
  by_cases hk : (p0.id == code.pregnancyId) = true
  · rw [if_pos hk] at hgp0
    rw [← hgp0]
    exact ⟨rfl, rfl, rfl, rfl⟩
  · rw [if_neg hk] at hgp0
    rw [← hgp0] at hqid
    exact absurd (by simp [hqid]) hk

/-- A pregnancy that already has victor as approved partner. -/
def exPregV : Pregnancy :=
  { id := 1, ownerId := "alice", partnerId := some "victor",
    partnerStatus := some "approved", partnerPermission := some "write",
    partnerName := some "Victor", displayPartnerCard := some true,
    coownerId := none, coownerName := none }

/-- An active father-role invite code for exPregV. -/
def exCodeV : InviteCode :=
  { id := 2, pregnancyId := 1, codeHash := hashCode "2345-6789-AB".toList,
    role := "father", permission := "read", createdAt := 0, expiresAt := 100,
    redeemedAt := none, redeemedBy := none, revokedAt := none }

/-- Store for the C9 witness: approved partner victor plus a live father
code. -/
def exStateV : DBState :=
  { pregnancies := [exPregV], supporters := [], inviteCodes := [exCodeV],
    codeAttempts := [], pairingRequests := [], now := 10 }

/-- Witness for C9: bob redeems the father code although victor is already the
approved partner, and every resulting pregnancy row names bob as partner. -/
theorem redeem_father_unconditional_witness :
    ∃ t pr pm, redeemInviteCode exStateV 2 "bob" "Bob" "b@b.b" = .ok (t, pr, pm) ∧
      ∀ q ∈ t.pregnancies, q.id = exCodeV.pregnancyId →
        q.partnerId = some "bob" ∧ q.partnerStatus = some "approved" ∧
        q.partnerPermission = some pm ∧ q.partnerName = some "Bob" :=
  redeem_father_unconditional exStateV 2 "bob" "Bob" "b@b.b" exCodeV exPregV
    "victor" rfl rfl (by decide) rfl rfl rfl

/-! ### Claim C4 -/

/-- Counterexample for C4: bob redeems the support-role code whose stored
permission is write, with a non-admin email; the redemption call returns
write, but the supporter row it creates stores the column default read (the
upsert never writes the permission column), so resolveAccess afterwards
resolves bob at permission read, not the code's stored permission. -/
theorem support_permission_counterexample :
    exCode.permission = "write" ∧
    redeemInviteCode exState 1 "bob" "Bob" "x@y.z" =
      .ok (exRedeemed, exPreg, "write") ∧
    (∀ x ∈ exRedeemed.supporters, x.permission = some "read") ∧
    getAccessiblePregnancy exRedeemed "bob" = some (exPreg, "read") ∧
    getMyRole exRedeemed "bob" = some ("support", "read", exPreg) := by
  refine ⟨rfl, rfl, ?_, rfl, rfl⟩
  decide

/-- C4 as amended: redeeming a support-role code with stored permission p and
a non-admin email returns p to the caller, but when the redeemer had no prior
supporter row the created row stores the permission column default read (the
upsert does not write the code permission), and resolveAccess subsequently
returns the pregnancy at the row's stored permission — read — with role
support. -/
theorem support_permission_amended :
    ∀ (s : DBState) (cid : Nat) (u d e : String) (t : DBState) (pr : Pregnancy)
      (pm : String) (code : InviteCode),
      redeemInviteCode s cid u d e = .ok (t, pr, pm) →
      s.inviteCodes.find? (fun c => c.id == cid && isActiveCode s c) = some code →
      (code.role == "father") = false →
      (e == adminEmail) = false →
      (∀ x ∈ s.supporters, (x.userId == u) = false) →
      pm = code.permission ∧
      t.supporters = s.supporters ++
        [freshSupporterRow s.supporters s.now code.pregnancyId u d cid true] ∧
      (freshSupporterRow s.supporters s.now code.pregnancyId u d cid true).permission
        = some "read" ∧
      (getPregnancyByOwner t u = none → getPregnancyByCoowner t u = none →
        getPregnancyByPartner t u = none →
        getAccessiblePregnancy t u = some (pr, "read") ∧
        getMyRole t u = some ("support", "read", pr)) := by
  intro s cid u d e t pr pm code h hfind hrole hemail hnosup
  obtain ⟨code2, hfind2, hpm, _, _, _, _, _, hsupport, hfp⟩ := redeem_ok_elim h
  rw [hfind] at hfind2
  injection hfind2 with hc2
  subst hc2
  obtain ⟨hpregs, hsups⟩ := hsupport hrole
  rw [hemail] at hpm hsups
  have hins : t.supporters = s.supporters ++
      [freshSupporterRow s.supporters s.now code.pregnancyId u d cid true] := by
    rw [hsups]
    unfold upsertSupporter
    rw [if_neg]
    · rfl
    · intro hany
      obtain ⟨x, hx, hkx⟩ := List.any_eq_true.mp hany
      rw [Bool.and_eq_true] at hkx
      rw [hnosup x hx] at hkx
      exact Bool.false_ne_true hkx.2
  refine ⟨by simpa using hpm, hins, rfl, ?_⟩
  intro hown hcoown hpartner
  have hsupfind : getSupporterByUserID t u =
      some (freshSupporterRow s.supporters s.now code.pregnancyId u d cid true) := by
    rw [getSupporterByUserID, hins, List.find?_append]
    have hnone : s.supporters.find? (fun x => x.userId == u && x.removedAt == none)
        = none := by
      rw [List.find?_eq_none]
      intro x hx hpx
      rw [Bool.and_eq_true, hnosup x hx] at hpx
      exact Bool.false_ne_true hpx.1
    rw [hnone, Option.none_or]
    exact List.find?_cons_of_pos _ (by simp [freshSupporterRow])
  have hpregsup : getPregnancyBySupporter t u = some pr := by
    rw [getPregnancyBySupporter]
    rw [getSupporterByUserID] at hsupfind
    rw [hsupfind]
    simpa [freshSupporterRow] using hfp
  constructor
  · rw [getAccessiblePregnancy, hown, hcoown, hpartner, hpregsup, hsupfind]
    rfl
  · rw [getMyRole, hown, hcoown, hpartner, hpregsup, hsupfind]
    rfl

/-- Witness for C4's amended theorem at the concrete write-permission support
code: the returned permission is the stored write, the inserted row stores
read, and bob resolves at read. -/
theorem support_permission_amended_witness :
    "write" = exCode.permission ∧
    exRedeemed.supporters = exState.supporters ++
      [freshSupporterRow exState.supporters exState.now exCode.pregnancyId
        "bob" "Bob" 1 true] ∧
    (freshSupporterRow exState.supporters exState.now exCode.pregnancyId
      "bob" "Bob" 1 true).permission = some "read" ∧
    (getPregnancyByOwner exRedeemed "bob" = none →
      getPregnancyByCoowner exRedeemed "bob" = none →
      getPregnancyByPartner exRedeemed "bob" = none →
      getAccessiblePregnancy exRedeemed "bob" = some (exPreg, "read") ∧
      getMyRole exRedeemed "bob" = some ("support", "read", exPreg)) :=
  support_permission_amended exState 1 "bob" "Bob" "x@y.z" exRedeemed exPreg
    "write" exCode rfl rfl rfl rfl (by decide)

/-! ### Claim C5 -/

/-- Reachable-state invariant maintained by every embedded mutation: a
pregnancy never has a partner id without partner status approved (both call
paths that set a partner set the status to approved in the same statement,
and both teardown paths clear the two columns together). -/
def partnerInvariant (s : DBState) : Prop :=
  ∀ p ∈ s.pregnancies, p.partnerId = none ∨ p.partnerStatus = some "approved"

theorem step_preserves_partnerInvariant {s t : DBState} (hst : Step s t)
    (hinv : partnerInvariant s) : partnerInvariant t := by
  cases hst with
  | createCode pid hh role perm exp => exact hinv
  | redeem cid u d e t2 pr pm hok =>
    obtain ⟨code, _, _, _, _, _, _, hfather, hsupport, _⟩ := redeem_ok_elim hok
    by_cases hrole : (code.role == "father") = true
    · obtain ⟨_, hpregs⟩ := hfather hrole
      unfold partnerInvariant
      rw [hpregs]
      intro q hq
      obtain ⟨p0, hp0, hgp0⟩ := List.mem_map.mp hq
      by_cases hk : (p0.id == code.pregnancyId) = true
      · rw [if_pos hk] at hgp0
        rw [← hgp0]
        exact Or.inr rfl
      · rw [if_neg hk] at hgp0
        rw [← hgp0]
        exact hinv p0 hp0
    · obtain ⟨hpregs, _⟩ := hsupport (by simpa using hrole)
      unfold partnerInvariant
      rw [hpregs]
      exact hinv
  | revoke cid o t2 hok =>
    unfold revokeInviteCode at hok
    by_cases hany : (s.inviteCodes.any (fun c =>
        c.id == cid
          && s.pregnancies.any (fun p => p.id == c.pregnancyId && p.ownerId == o)
          && c.redeemedAt == none && c.revokedAt == none)) = true
    · rw [if_pos hany] at hok
      injection hok with hok2
      subst hok2
      exact hinv
    · rw [if_neg hany] at hok
      cases hok
  | removeSup sid o t2 hok =>
    unfold removeSupporter at hok
    by_cases hany : (s.supporters.any (fun x =>
        x.id == sid
          && s.pregnancies.any (fun p => p.id == x.pregnancyId && p.ownerId == o)
          && x.removedAt == none)) = true
    · rw [if_pos hany] at hok
      injection hok with hok2
      subst hok2
      exact hinv
    · rw [if_neg hany] at hok
      cases hok
  | approve rid tgt pm t2 hok =>
    unfold approvePairingRequest at hok
    cases hfind : s.pairingRequests.find? (fun r =>
        r.id == rid && r.targetId == some tgt && r.status == "pending") with
    | none => rw [hfind] at hok; cases hok
    | some pr0 =>
      rw [hfind] at hok
      injection hok with hok2
      subst hok2
      unfold partnerInvariant
      intro q hq
      obtain ⟨p0, hp0, hgp0⟩ := List.mem_map.mp hq
      by_cases hk : (p0.ownerId == tgt) = true
      · rw [if_pos hk] at hgp0
        rw [← hgp0]
        exact Or.inr rfl
      · rw [if_neg hk] at hgp0
        rw [← hgp0]
        exact hinv p0 hp0
  | deny rid tgt t2 hok =>
    unfold denyPairingRequest at hok
    by_cases hany : (s.pairingRequests.any (fun r =>
        r.id == rid && r.targetId == some tgt && r.status == "pending")) = true
    · rw [if_pos hany] at hok
      injection hok with hok2
      subst hok2
      exact hinv
    · rw [if_neg hany] at hok
      cases hok
  | updatePerm o pm t2 hok =>
    unfold updatePartnerPermission at hok
    by_cases hany : (s.pregnancies.any (fun p =>
        p.ownerId == o && p.partnerId != none)) = true
    · rw [if_pos hany] at hok
      injection hok with hok2
      subst hok2
      unfold partnerInvariant
      intro q hq
      obtain ⟨p0, hp0, hgp0⟩ := List.mem_map.mp hq
      by_cases hk : (p0.ownerId == o && p0.partnerId != none) = true
      · rw [if_pos hk] at hgp0
        rw [← hgp0]
        rcases hinv p0 hp0 with h0 | h0
        · exact Or.inl h0
        · exact Or.inr h0
      · rw [if_neg hk] at hgp0
        rw [← hgp0]
        exact hinv p0 hp0
    · rw [if_neg hany] at hok
      cases hok
  | removePair u t2 hok =>
    unfold removePairing at hok
    by_cases hown : (s.pregnancies.any (fun p =>
        p.ownerId == u && p.partnerId != none)) = true
    · rw [if_pos hown] at hok
      injection hok with hok2
      subst hok2
      unfold partnerInvariant
      intro q hq
      obtain ⟨p0, hp0, hgp0⟩ := List.mem_map.mp hq
      by_cases hk : (p0.ownerId == u && p0.partnerId != none) = true
      · rw [if_pos hk] at hgp0
        rw [← hgp0]
        exact Or.inl rfl
      · rw [if_neg hk] at hgp0
        rw [← hgp0]
        exact hinv p0 hp0
    · rw [if_neg hown] at hok
      by_cases hptn : (s.pregnancies.any (fun p => p.partnerId == some u)) = true
      · rw [if_pos hptn] at hok
        injection hok with hok2
        subst hok2
        unfold partnerInvariant
        intro q hq
        obtain ⟨p0, hp0, hgp0⟩ := List.mem_map.mp hq
        by_cases hk : (p0.partnerId == some u) = true
        · rw [if_pos hk] at hgp0
          rw [← hgp0]
          exact Or.inl rfl
        · rw [if_neg hk] at hgp0
          rw [← hgp0]
          exact hinv p0 hp0
      · rw [if_neg hptn] at hok
        cases hok
  | recordAttempt u ok ip => exact hinv
  | tick dt => exact hinv

/-- C5: on invariant-respecting states, issuing a father-role code returns
Conflict exactly when the owner pregnancy already has an (always approved)
partner — the conflict check precedes even permission validation — while a
support-role code has no partner precondition and always issues successfully
for a valid permission; and every embedded mutation preserves the invariant
that a present partner is an approved partner. -/
theorem issue_father_conflict :
    (∀ (s : DBState) (uid permReq : String) (rb : Fin 10 → Nat) (preg : Pregnancy),
        partnerInvariant s →
        getPregnancyByOwner s uid = some preg →
        (generateInviteCodeHandler s uid "father" permReq rb = .conflict ↔
          ∃ v, preg.partnerId = some v ∧ preg.partnerStatus = some "approved")) ∧
    (∀ (s : DBState) (uid permReq : String) (rb : Fin 10 → Nat) (preg : Pregnancy),
        getPregnancyByOwner s uid = some preg →
        (permReq = "" ∨ permReq = "read" ∨ permReq = "write") →
        ∃ t, generateInviteCodeHandler s uid "support" permReq rb =
          .ok (generateInviteCode rb) t) ∧
    (∀ (s t : DBState), Step s t → partnerInvariant s → partnerInvariant t) := by
  refine ⟨?_, ?_, fun s t hst hinv => step_preserves_partnerInvariant hst hinv⟩
  · intro s uid permReq rb preg hinv hown
    have hmem : preg ∈ s.pregnancies := List.mem_of_find?_eq_some hown
    unfold generateInviteCodeHandler
    rw [hown]
    dsimp only
    rw [if_neg (by decide)]
    cases hpid : preg.partnerId with
    | some v =>
      rw [if_pos (by simp [hpid])]
      constructor
      · intro _
        refine ⟨v, rfl, ?_⟩
        rcases hinv preg hmem with h0 | h0
        · rw [hpid] at h0
          cases h0
        · exact h0
      · intro _
        rfl
    | none =>
      rw [if_neg (by simp [hpid])]
      constructor
      · intro hcon
        by_cases hc : (!((if (permReq == "") = true then "read" else permReq) == "read"
            || (if (permReq == "") = true then "read" else permReq) == "write")) = true
        · rw [if_pos hc] at hcon
          cases hcon
        · rw [if_neg hc] at hcon
          cases hcon
      · rintro ⟨v, hv, _⟩
        exact Option.noConfusion hv
  · intro s uid permReq rb preg hown hperm
    unfold generateInviteCodeHandler
    rw [hown]
    dsimp only
    rw [if_neg (by decide)]
    rw [if_neg (by simp)]
    rcases hperm with rfl | rfl | rfl
    · rw [if_neg (by decide)]
      exact ⟨_, rfl⟩
    · rw [if_neg (by decide)]
      exact ⟨_, rfl⟩
    · rw [if_neg (by decide)]
      exact ⟨_, rfl⟩

/-- Witness for C5: issuing a father code for the pregnancy with victor as
approved partner returns Conflict, and issuing a support code there
succeeds. -/
theorem issue_father_conflict_witness :
    generateInviteCodeHandler exStateV "alice" "father" "" (fun _ => 0) =
      .conflict ∧
    ∃ t, generateInviteCodeHandler exStateV "alice" "support" "" (fun _ => 0) =
      .ok (generateInviteCode (fun _ => 0)) t :=
  ⟨(issue_father_conflict.1 exStateV "alice" "" (fun _ => 0) exPregV
      (by unfold partnerInvariant; decide) rfl).mpr ⟨"victor", rfl, rfl⟩,
   issue_father_conflict.2.1 exStateV "alice" "" (fun _ => 0) exPregV rfl
     (Or.inl rfl)⟩

/-! ### Claim C6 -/

theorem countRecent_record_failure (s : DBState) (u ip : String) :
    countRecentCodeAttempts (recordCodeAttempt s u false ip) u =
      countRecentCodeAttempts s u + 1 := by
  unfold countRecentCodeAttempts recordCodeAttempt
  dsimp only
  rw [List.filter_append, List.length_append]
  have hwin : s.now < s.now + 3600 := by omega
  simp [hwin]

/-- C6: with the failure-count query succeeding, a user with at least five
recorded failures inside the trailing hour gets RateLimited on the next
redemption attempt whatever code string is supplied — the throttle check
precedes format validation and the hash-comparison scan, which never run —
and an attempt rejected for invalid format is itself recorded as one more
failed attempt inside the window. -/
theorem redeem_rate_limit :
    (∀ (s : DBState) (u : String) (code : List Char) (d e ip : String),
        5 ≤ countRecentCodeAttempts s u →
        redeemInviteCodeHandler s false u code d e ip = (.rateLimited, s)) ∧
    (∀ (s : DBState) (u : String) (code : List Char) (d e ip : String),
        countRecentCodeAttempts s u < 5 → isValidCodeFormat code = false →
        redeemInviteCodeHandler s false u code d e ip =
          (.validationError, recordCodeAttempt s u false ip) ∧
        countRecentCodeAttempts (recordCodeAttempt s u false ip) u =
          countRecentCodeAttempts s u + 1) := by
  constructor
  · intro s u code d e ip h5
    unfold redeemInviteCodeHandler
    rw [if_pos ⟨rfl, h5⟩]
  · intro s u code d e ip hlt hbad
    refine ⟨?_, countRecent_record_failure s u ip⟩
    unfold redeemInviteCodeHandler
    rw [if_neg (fun hcon => absurd hcon.2 (by omega))]
    unfold redeemAfterRateLimit
    rw [hbad]
    rfl

/-- A failed attempt by bob at second i. -/
def exAttempt (i : Nat) : CodeAttempt :=
  { userId := "bob", attemptedAt := i, success := false, ipAddress := "ip" }

/-- Store with five recent failed attempts by bob. -/
def exStateRL : DBState :=
  { exState with codeAttempts :=
      [exAttempt 1, exAttempt 2, exAttempt 3, exAttempt 4, exAttempt 5] }

/-- Witness for C6: with five failures on record, bob gets RateLimited even
for a perfectly valid code string, and with a clean record a malformed code is
rejected with a recorded failure. -/
theorem redeem_rate_limit_witness :
    redeemInviteCodeHandler exStateRL false "bob" "2345-6789-AB".toList
      "B" "e" "ip" = (.rateLimited, exStateRL) ∧
    redeemInviteCodeHandler exState false "bob" "bad".toList "B" "e" "ip" =
      (.validationError, recordCodeAttempt exState "bob" false "ip") :=
  ⟨redeem_rate_limit.1 exStateRL "bob" "2345-6789-AB".toList "B" "e" "ip"
      (by decide),
   (redeem_rate_limit.2 exState "bob" "bad".toList "B" "e" "ip" (by decide)
      (by decide)).1⟩

/-! ### Claim C10 -/

theorem redeemAfterRateLimit_ne_rateLimited (s : DBState) (u : String)
    (code : List Char) (d e ip : String) :
    (redeemAfterRateLimit s u code d e ip).1 ≠ RedeemResult.rateLimited := by
  unfold redeemAfterRateLimit
  by_cases hv : (!isValidCodeFormat code) = true
  · rw [if_pos hv]
    intro hcon
    cases hcon
  · rw [if_neg hv]
    cases hfind : (findActiveInviteCodes s).find?
        (fun c => verifyCode code c.codeHash) with
    | none =>
      intro hcon
      cases hcon
    | some matched =>
      dsimp only
      cases hred : redeemInviteCode s matched.id u d e with
      | error err =>
        cases err with
        | notFound =>
          dsimp only
          intro hcon
          cases hcon
        | storage =>
          dsimp only
          intro hcon
          cases hcon
      | ok out =>
        obtain ⟨t2, pr2, pm2⟩ := out
        dsimp only
        intro hcon
        cases hcon

/-- C10: when the failed-attempt count query reports an error, the handler
behaves exactly as the pipeline with no throttle — it proceeds to format
validation, the hash scan and redemption — and in particular never answers
RateLimited: the throttle fails open on storage error. -/
theorem throttle_fails_open :
    ∀ (s : DBState) (u : String) (code : List Char) (d e ip : String),
      redeemInviteCodeHandler s true u code d e ip =
        redeemAfterRateLimit s u code d e ip ∧
      (redeemInviteCodeHandler s true u code d e ip).1 ≠
        RedeemResult.rateLimited := by
  intro s u code d e ip
  have heq : redeemInviteCodeHandler s true u code d e ip =
      redeemAfterRateLimit s u code d e ip := by
    unfold redeemInviteCodeHandler
    rw [if_neg]
    rintro ⟨h1, _⟩
    cases h1
  refine ⟨heq, ?_⟩
  rw [heq]
  exact redeemAfterRateLimit_ne_rateLimited s u code d e ip

/-- Witness for C10: with five failures on record but the count query erroring,
the handler result equals the unthrottled pipeline and is not RateLimited. -/
theorem throttle_fails_open_witness :
    redeemInviteCodeHandler exStateRL true "bob" "2345-6789-AB".toList
        "B" "e" "ip" =
      redeemAfterRateLimit exStateRL "bob" "2345-6789-AB".toList "B" "e" "ip" ∧
    (redeemInviteCodeHandler exStateRL true "bob" "2345-6789-AB".toList
        "B" "e" "ip").1 ≠ RedeemResult.rateLimited :=
  throttle_fails_open exStateRL "bob" "2345-6789-AB".toList "B" "e" "ip"

end Tracker2
